import Mathlib

/-!
Shallow embedding of the bulk-send orchestration core of the
ExcellenceServices repository (`EmailService` in the frontend JS module):
`sendEmail`, `sendBulkEmails` and `getSummary`, together with the
grouping arithmetic of the batching loop.

Modelling conventions:
* The browser `fetch` + `response.json()` pipeline of `sendEmail` is
  abstracted as an oracle `env : String → String → String → FetchBehavior`
  giving, for each `(toEmail, subject, body)` triple, either the parsed
  JSON result (`FetchBehavior.ok`) or a thrown error with its message
  (`FetchBehavior.throw`).  A thrown error whose `message` field is
  absent/falsy is modelled by the empty string, matching the JS
  `error.message || 'Network error or API connection failed'` fallback.
* Wall-clock fields (`sentAt`, `attemptedAt`) and `messageId` are elided:
  they are opaque timestamps/ids never inspected by the scheduler, and the
  `new Date(...)` re-wrapping in `sendEmail` does not alter any field the
  code branches on.
* JS numbers are modelled as `Nat` (counts) and `ℚ` (the derived success
  rate); list lengths in this code are far below 2^53 so `Number`
  arithmetic on them is exact.
* `batchSize` and `delayMs` model `Config.email.batchSize || 10` and
  `Config.email.delayBetweenBatches || 1000`; both are positive in the
  shipped configuration.  The behaviour of the loop for a negative
  configured batch size is modelled separately via `jsSlice` below.
* The progress callback, the `setTimeout` delays and the `sendEmail`
  invocations are observed as traces recorded in a `RunLog`: the
  `progressCalls` list holds the argument of each `progressCallback(...)`
  invocation in order, `delays` the duration of each inter-batch
  `setTimeout`, and `sendCalls` the recipient argument of each
  `this.sendEmail(email, subject, body)` call, in call order.
-/

/-- Result object of one send attempt, as consumed by the scheduler:
the JS object either comes back from the backend (`success: true/false`,
arbitrary fields) or is synthesized in the `catch` branch of `sendEmail`. -/
structure EmailResult where
  success : Bool
  email : String
  subject : String
  errorCode : Option String
  errorMessage : Option String
deriving Repr, DecidableEq

/-- Behaviour of the `fetch` + `response.json()` pipeline for one call:
either it yields a parsed result object, or it throws (network failure or
JSON parse failure) with the given error message (empty string = falsy). -/
inductive FetchBehavior where
  | ok (r : EmailResult)
  | throw (msg : String)
deriving Repr, DecidableEq

/-- Embedding of `EmailService.sendEmail(toEmail, subject, body)`:
the `try` branch returns the parsed backend result unchanged; the `catch`
branch synthesizes a failure outcome with `errorCode = 'NETWORK_ERROR'`
and `errorMessage = error.message || 'Network error or API connection failed'`. -/
def sendEmail (env : String → String → String → FetchBehavior)
    (toEmail subject body : String) : EmailResult :=
  match env toEmail subject body with
  | .ok r => r
  | .throw msg =>
    { success := false
      email := toEmail
      subject := subject
      errorCode := some "NETWORK_ERROR"
      errorMessage :=
        some (if msg = "" then "Network error or API connection failed" else msg) }

/-- Fuel-indexed chunking of the recipient list: with `fuel ≥ l.length`
and `1 ≤ b` this computes exactly the successive `emailList.slice(i, i + batchSize)`
batches of the `for (let i = 0; i < emailList.length; i += batchSize)` loop. -/
def groupsAux (b : Nat) : Nat → List α → List (List α)
  | _, [] => []
  | 0, _ :: _ => []
  | fuel + 1, x :: xs => (x :: xs).take b :: groupsAux b fuel ((x :: xs).drop b)

/-- Batches processed by the bulk loop, in order. -/
def groups (b : Nat) (l : List α) : List (List α) :=
  groupsAux b l.length l

/-- Number of loop iterations, `ceil(n / b)` for `1 ≤ b`. -/
def numGroups (b n : Nat) : Nat :=
  (n + b - 1) / b

/-- The two ordered outcome collections of `this.results`. -/
structure Ledger where
  success : List EmailResult
  failure : List EmailResult
deriving Repr, DecidableEq

/-- Argument object of one `progressCallback({processed, total, success, failure})`
invocation. -/
structure Progress where
  processed : Nat
  total : Nat
  success : Nat
  failure : Nat
deriving Repr, DecidableEq

/-- Observable log of one `sendBulkEmails` run: final ledger plus the
traces of progress-callback invocations, inter-batch delays, and
`sendEmail` calls. -/
structure RunLog where
  ledger : Ledger
  progressCalls : List Progress
  delays : List Nat
  sendCalls : List String
deriving Repr, DecidableEq

/-- Value the `sendBulkEmails` promise resolves with. -/
structure BulkResult where
  success : List EmailResult
  failure : List EmailResult
  total : Nat
  successCount : Nat
  failureCount : Nat
deriving Repr, DecidableEq

/-- Body of the batching loop of `sendBulkEmails`, one recursive step per
batch: fire `sendEmail` for every address of the batch (`Promise.all`
returns the results in the batch's positional order), append the
successes and failures to the ledger in that order, record the progress
snapshot `{processed: Math.min(i + batchSize, total), total, success, failure}`,
and schedule the `setTimeout` delay when `i + batchSize < emailList.length`. -/
def runGroups (env : String → String → String → FetchBehavior)
    (subject body : String) (batchSize delayMs totalCount : Nat) :
    List (List String) → Nat → Ledger → RunLog
  | [], _, led => { ledger := led, progressCalls := [], delays := [], sendCalls := [] }
  | batch :: rest, i, led =>
    let results := batch.map fun e => sendEmail env e subject body
    let led2 : Ledger :=
      { success := led.success ++ results.filter fun r => r.success
        failure := led.failure ++ results.filter fun r => !r.success }
    let log := runGroups env subject body batchSize delayMs totalCount rest (i + batchSize) led2
    { ledger := log.ledger
      progressCalls :=
        { processed := min (i + batchSize) totalCount
          total := totalCount
          success := led2.success.length
          failure := led2.failure.length } :: log.progressCalls
      delays := (if i + batchSize < totalCount then [delayMs] else []) ++ log.delays
      sendCalls := batch ++ log.sendCalls }

/-- One full `sendBulkEmails(emailList, subject, body, progressCallback)`
run, observed as a log.  The run starts from a freshly reset ledger
(`this.results = {success: [], failure: []}`). -/
def sendBulkEmailsLog (env : String → String → String → FetchBehavior)
    (emailList : List String) (subject body : String) (batchSize delayMs : Nat) : RunLog :=
  runGroups env subject body batchSize delayMs emailList.length
    (groups batchSize emailList) 0 { success := [], failure := [] }

/-- Value returned by `sendBulkEmails`. -/
def sendBulkEmails (env : String → String → String → FetchBehavior)
    (emailList : List String) (subject body : String) (batchSize delayMs : Nat) : BulkResult :=
  let log := sendBulkEmailsLog env emailList subject body batchSize delayMs
  { success := log.ledger.success
    failure := log.ledger.failure
    total := emailList.length
    successCount := log.ledger.success.length
    failureCount := log.ledger.failure.length }

/-- Summary object of `EmailService.getSummary()`, computed from the
ledger `this.results`. -/
structure Summary where
  total : Nat
  success : Nat
  failure : Nat
  successRate : ℚ
deriving Repr, DecidableEq

/-- Embedding of `getSummary`: the JS expression
`success / (success + failure) * 100 || 0` evaluates to `NaN` exactly when
both counts are zero (0/0), and `NaN || 0` is `0`; when `success = 0` and
`failure > 0` the quotient is `0` and `0 || 0` is again `0`, so the guard
is extensionally an if-then-else on `success + failure = 0`. -/
def getSummary (results : Ledger) : Summary :=
  let s := results.success.length
  let f := results.failure.length
  { total := s + f
    success := s
    failure := f
    successRate := if s + f = 0 then 0 else (s : ℚ) / ((s : ℚ) + (f : ℚ)) * 100 }

/-- Semantics of `Array.prototype.slice(start, end)` on a list, with the
ECMAScript handling of negative and out-of-range indices.  The bulk loop
computes each batch as `emailList.slice(i, i + batchSize)`; for the
positive batch sizes of the shipped configuration this agrees with
`groups`, and it is the faithful semantics when the configured batch size
is negative (see the batch-size validation claim). -/
def jsSlice (l : List α) (s e : Int) : List α :=
  let len : Int := l.length
  let s2 : Int := if s < 0 then max (len + s) 0 else min s len
  let e2 : Int := if e < 0 then max (len + e) 0 else min e len
  (l.take e2.toNat).drop s2.toNat

/-! ### Helper lemmas about filtering and grouping -/

theorem filter_length_split (p : α → Bool) (l : List α) :
    (l.filter p).length + (l.filter fun a => !p a).length = l.length := by
  induction l with
  | nil => rfl
  | cons x xs ih =>
    by_cases h : p x = true <;> simp [List.filter_cons, h] <;> omega

theorem groupsAux_flatten (b : Nat) (hb : 1 ≤ b) :
    ∀ (fuel : Nat) (l : List α), l.length ≤ fuel → (groupsAux b fuel l).flatten = l := by
  intro fuel
  induction fuel with
  | zero =>
    intro l hl
    have : l = [] := List.length_eq_zero.mp (Nat.le_zero.mp hl)
    subst this
    rfl
  | succ n ih =>
    intro l hl
    match l with
    | [] => rfl
    | x :: xs =>
      have hdrop : ((x :: xs).drop b).length ≤ n := by
        simp only [List.length_drop, List.length_cons]
        simp only [List.length_cons] at hl
        omega
      simp only [groupsAux, List.flatten_cons, ih _ hdrop, List.take_append_drop]

theorem groups_flatten (b : Nat) (hb : 1 ≤ b) (l : List α) : (groups b l).flatten = l :=
  groupsAux_flatten b hb l.length l le_rfl

theorem groupsAux_length (b : Nat) (hb : 1 ≤ b) :
    ∀ (fuel : Nat) (l : List α), l.length ≤ fuel →
      (groupsAux b fuel l).length = numGroups b l.length := by
  intro fuel
  induction fuel with
  | zero =>
    intro l hl
    have : l = [] := List.length_eq_zero.mp (Nat.le_zero.mp hl)
    subst this
    simp [groupsAux, numGroups, Nat.div_eq_of_lt (by omega : b - 1 < b)]
  | succ n ih =>
    intro l hl
    match l with
    | [] => simp [groupsAux, numGroups, Nat.div_eq_of_lt (by omega : b - 1 < b)]
    | x :: xs =>
      have hdrop : ((x :: xs).drop b).length ≤ n := by
        simp only [List.length_drop, List.length_cons]
        simp only [List.length_cons] at hl
        omega
      simp only [groupsAux, List.length_cons, ih _ hdrop]
      simp only [numGroups, List.length_drop, List.length_cons]
      rcases Nat.le_total b (xs.length + 1) with hble | hble
      · have h1 : xs.length + 1 + b - 1 = (xs.length + 1 - b + b - 1) + b := by omega
        rw [h1, Nat.add_div_right _ (by omega : 0 < b)]
      · have h0 : xs.length + 1 - b = 0 := by omega
        have h1 : xs.length + 1 + b - 1 = (xs.length + 1 - 1) + b := by omega
        rw [h0, h1, Nat.add_div_right _ (by omega : 0 < b),
            Nat.div_eq_of_lt (by omega : xs.length + 1 - 1 < b),
            Nat.div_eq_of_lt (by omega : 0 + b - 1 < b)]

theorem groups_length (b : Nat) (hb : 1 ≤ b) (l : List α) :
    (groups b l).length = numGroups b l.length :=
  groupsAux_length b hb l.length l le_rfl

/-- Shape invariant of the batch list produced by the slicing loop: every
batch except possibly the last has exactly `b` elements, and the last is
nonempty and no larger than `b`. -/
def ChunksOf (b : Nat) : List (List α) → Prop
  | [] => True
  | [g] => 1 ≤ g.length ∧ g.length ≤ b
  | g :: g2 :: rest => g.length = b ∧ ChunksOf b (g2 :: rest)

theorem chunksOf_head_le (b : Nat) {g : List α} {rest : List (List α)}
    (h : ChunksOf b (g :: rest)) : g.length ≤ b := by
  match rest with
  | [] => exact h.2
  | g2 :: rest2 => exact Nat.le_of_eq h.1

theorem chunksOf_head_pos (b : Nat) (hb : 1 ≤ b) {g : List α} {rest : List (List α)}
    (h : ChunksOf b (g :: rest)) : 1 ≤ g.length := by
  match rest with
  | [] => exact h.1
  | g2 :: rest2 =>
    have hlen := h.1
    omega

theorem chunksOf_tail (b : Nat) {g : List α} {rest : List (List α)}
    (h : ChunksOf b (g :: rest)) : ChunksOf b rest := by
  match rest with
  | [] => trivial
  | g2 :: rest2 => exact h.2

theorem groupsAux_eq_nil_iff (b : Nat) :
    ∀ (fuel : Nat) (l : List α), l.length ≤ fuel → (groupsAux b fuel l = [] ↔ l = []) := by
  intro fuel l hl
  match fuel, l with
  | _, [] => simp [groupsAux]
  | 0, x :: xs => simp at hl
  | n + 1, x :: xs => simp [groupsAux]

theorem groupsAux_chunksOf (b : Nat) (hb : 1 ≤ b) :
    ∀ (fuel : Nat) (l : List α), l.length ≤ fuel → ChunksOf b (groupsAux b fuel l) := by
  intro fuel
  induction fuel with
  | zero =>
    intro l hl
    have : l = [] := List.length_eq_zero.mp (Nat.le_zero.mp hl)
    subst this
    trivial
  | succ n ih =>
    intro l hl
    match l with
    | [] => trivial
    | x :: xs =>
      have hdrop : ((x :: xs).drop b).length ≤ n := by
        simp only [List.length_drop, List.length_cons]
        simp only [List.length_cons] at hl
        omega
      show ChunksOf b ((x :: xs).take b :: groupsAux b n ((x :: xs).drop b))
      cases hrec : groupsAux b n ((x :: xs).drop b) with
      | nil =>
        have hempty : (x :: xs).drop b = [] := (groupsAux_eq_nil_iff b n _ hdrop).mp hrec
        have hlen : xs.length + 1 ≤ b := by
          have := congrArg List.length hempty
          simp only [List.length_drop, List.length_cons, List.length_nil] at this
          omega
        show 1 ≤ ((x :: xs).take b).length ∧ ((x :: xs).take b).length ≤ b
        simp only [List.length_take, List.length_cons]
        omega
      | cons g2 rest2 =>
        have hne : (x :: xs).drop b ≠ [] := by
          intro hc
          rw [(groupsAux_eq_nil_iff b n _ hdrop).mpr hc] at hrec
          exact List.noConfusion hrec
        have hlt : b < xs.length + 1 := by
          rcases Nat.lt_or_ge b (xs.length + 1) with h | h
          · exact h
          · exact absurd (List.drop_eq_nil_of_le (by simpa using h)) hne
        refine ⟨?_, hrec ▸ ih _ hdrop⟩
        simp only [List.length_take, List.length_cons]
        omega

theorem groups_chunksOf (b : Nat) (hb : 1 ≤ b) (l : List α) : ChunksOf b (groups b l) :=
  groupsAux_chunksOf b hb l.length l le_rfl

/-! ### Characterization of the batching loop -/

theorem runGroups_ledger (env : String → String → String → FetchBehavior)
    (subject body : String) (b d n : Nat) :
    ∀ (gs : List (List String)) (i : Nat) (led : Ledger),
      (runGroups env subject body b d n gs i led).ledger =
        { success := led.success ++
            ((gs.flatten.map fun e => sendEmail env e subject body).filter fun r => r.success)
          failure := led.failure ++
            ((gs.flatten.map fun e => sendEmail env e subject body).filter fun r => !r.success) } := by
  intro gs
  induction gs with
  | nil => intro i led; simp [runGroups]
  | cons batch rest ih =>
    intro i led
    simp only [runGroups, ih, List.flatten_cons, List.map_append, List.filter_append,
      List.append_assoc]

theorem runGroups_sendCalls (env : String → String → String → FetchBehavior)
    (subject body : String) (b d n : Nat) :
    ∀ (gs : List (List String)) (i : Nat) (led : Ledger),
      (runGroups env subject body b d n gs i led).sendCalls = gs.flatten := by
  intro gs
  induction gs with
  | nil => intro i led; simp [runGroups]
  | cons batch rest ih =>
    intro i led
    simp only [runGroups, ih, List.flatten_cons]

/-- Ledger after appending one batch's outcomes, as the loop body does. -/
def stepLedger (env : String → String → String → FetchBehavior)
    (subject body : String) (led : Ledger) (batch : List String) : Ledger :=
  let results := batch.map fun e => sendEmail env e subject body
  { success := led.success ++ results.filter fun r => r.success
    failure := led.failure ++ results.filter fun r => !r.success }

theorem runGroups_delays_cons (env : String → String → String → FetchBehavior)
    (subject body : String) (b d n : Nat) (batch : List String)
    (rest : List (List String)) (i : Nat) (led : Ledger) :
    (runGroups env subject body b d n (batch :: rest) i led).delays =
      (if i + b < n then [d] else []) ++
        (runGroups env subject body b d n rest (i + b)
          (stepLedger env subject body led batch)).delays := rfl

theorem runGroups_progress_cons (env : String → String → String → FetchBehavior)
    (subject body : String) (b d n : Nat) (batch : List String)
    (rest : List (List String)) (i : Nat) (led : Ledger) :
    (runGroups env subject body b d n (batch :: rest) i led).progressCalls =
      { processed := min (i + b) n
        total := n
        success := (stepLedger env subject body led batch).success.length
        failure := (stepLedger env subject body led batch).failure.length } ::
        (runGroups env subject body b d n rest (i + b)
          (stepLedger env subject body led batch)).progressCalls := rfl

theorem runGroups_delays (env : String → String → String → FetchBehavior)
    (subject body : String) (b d n : Nat) (hb : 1 ≤ b) :
    ∀ (gs : List (List String)) (i : Nat) (led : Ledger),
      ChunksOf b gs → i + gs.flatten.length = n →
      (runGroups env subject body b d n gs i led).delays = List.replicate (gs.length - 1) d := by
  intro gs
  induction gs with
  | nil => intro i led hc hn; simp [runGroups]
  | cons batch rest ih =>
    intro i led hc hn
    match rest with
    | [] =>
      have hle : batch.length ≤ b := chunksOf_head_le b hc
      have hnot : ¬ (i + b < n) := by
        simp only [List.flatten_cons, List.flatten_nil, List.length_append,
          List.length_nil] at hn
        omega
      simp [runGroups, hnot]
    | g2 :: rest2 =>
      have hbatch : batch.length = b := hc.1
      have hg2 : 1 ≤ g2.length := chunksOf_head_pos b hb (chunksOf_tail b hc)
      have hflat : i + batch.length + (g2 :: rest2).flatten.length = n := by
        simp only [List.flatten_cons, List.length_append] at hn ⊢
        omega
      have hlt : i + b < n := by
        simp only [List.flatten_cons, List.length_append] at hflat
        omega
      have hinv : (i + b) + (g2 :: rest2).flatten.length = n := by omega
      rw [runGroups_delays_cons, ih _ _ (chunksOf_tail b hc) hinv, if_pos hlt]
      simp [List.replicate_succ]

theorem stepLedger_count (env : String → String → String → FetchBehavior)
    (subject body : String) (led : Ledger) (batch : List String) :
    (stepLedger env subject body led batch).success.length +
      (stepLedger env subject body led batch).failure.length =
      led.success.length + led.failure.length + batch.length := by
  simp only [stepLedger, List.length_append]
  have := filter_length_split (fun r => r.success)
    (batch.map fun e => sendEmail env e subject body)
  simp only [List.length_map] at this
  omega

theorem runGroups_progress (env : String → String → String → FetchBehavior)
    (subject body : String) (b d n : Nat) (hb : 1 ≤ b) :
    ∀ (gs : List (List String)) (i : Nat) (led : Ledger),
      ChunksOf b gs → i + gs.flatten.length = n →
      led.success.length + led.failure.length = i →
      (runGroups env subject body b d n gs i led).progressCalls.length = gs.length ∧
      (∀ p ∈ (runGroups env subject body b d n gs i led).progressCalls,
          p.total = n ∧ p.processed = p.success + p.failure ∧
          min (i + b) n ≤ p.processed ∧ p.processed ≤ n) ∧
      List.Chain' (fun p q => p.processed ≤ q.processed)
        (runGroups env subject body b d n gs i led).progressCalls := by
  intro gs
  induction gs with
  | nil =>
    intro i led hc hn hcnt
    refine ⟨rfl, ?_, ?_⟩
    · intro p hp; exact absurd hp (List.not_mem_nil p)
    · exact List.chain'_nil
  | cons batch rest ih =>
    intro i led hc hn hcnt
    have hstep := stepLedger_count env subject body led batch
    have hbpos : 1 ≤ batch.length := chunksOf_head_pos b hb hc
    have hble : batch.length ≤ b := chunksOf_head_le b hc
    have hmin : min (i + b) n = i + batch.length := by
      match rest with
      | [] =>
        simp only [List.flatten_cons, List.flatten_nil, List.length_append,
          List.length_nil] at hn
        omega
      | g2 :: rest2 =>
        have hbatch : batch.length = b := hc.1
        have hg2 : 1 ≤ g2.length := chunksOf_head_pos b hb (chunksOf_tail b hc)
        simp only [List.flatten_cons, List.length_append] at hn
        omega
    rw [runGroups_progress_cons]
    match rest with
    | [] =>
      refine ⟨rfl, ?_, ?_⟩
      · intro p hp
        rcases List.mem_cons.mp hp with hp | hp
        · subst hp
          refine ⟨rfl, ?_, ?_, ?_⟩ <;> dsimp only <;> omega
        · exact absurd hp (List.not_mem_nil p)
      · exact List.chain'_singleton _
    | g2 :: rest2 =>
      have hbatch : batch.length = b := hc.1
      have hinv : (i + b) + (g2 :: rest2).flatten.length = n := by
        simp only [List.flatten_cons, List.length_append] at hn ⊢
        omega
      have hcnt2 : (stepLedger env subject body led batch).success.length +
          (stepLedger env subject body led batch).failure.length = i + b := by
        omega
      obtain ⟨ihlen, ihmem, ihchain⟩ := ih (i + b)
        (stepLedger env subject body led batch) (chunksOf_tail b hc) hinv hcnt2
      refine ⟨by simp [ihlen], ?_, ?_⟩
      · intro p hp
        rcases List.mem_cons.mp hp with hp | hp
        · subst hp
          refine ⟨rfl, ?_, ?_, ?_⟩ <;> dsimp only <;> omega
        · obtain ⟨hp1, hp2, hp3, hp4⟩ := ihmem p hp
          refine ⟨hp1, hp2, ?_, hp4⟩
          omega
      · refine List.chain'_cons'.mpr ⟨?_, ihchain⟩
        intro q hq
        have hqmem : q ∈ (runGroups env subject body b d n (g2 :: rest2) (i + b)
            (stepLedger env subject body led batch)).progressCalls :=
          List.mem_of_mem_head? hq
        obtain ⟨_, _, hq3, _⟩ := ihmem q hqmem
        dsimp only
        omega

/-! ### Corollaries at the top level of a run -/

theorem sendBulkEmailsLog_ledger (env : String → String → String → FetchBehavior)
    (emailList : List String) (subject body : String) (batchSize delayMs : Nat)
    (hb : 1 ≤ batchSize) :
    (sendBulkEmailsLog env emailList subject body batchSize delayMs).ledger =
      { success := (emailList.map fun e => sendEmail env e subject body).filter
          fun r => r.success
        failure := (emailList.map fun e => sendEmail env e subject body).filter
          fun r => !r.success } := by
  unfold sendBulkEmailsLog
  rw [runGroups_ledger, groups_flatten _ hb]
  simp

theorem chunksOf_mem_le (b : Nat) :
    ∀ (gs : List (List α)), ChunksOf b gs → ∀ g ∈ gs, g.length ≤ b := by
  intro gs
  induction gs with
  | nil => intro hc g hg; exact absurd hg (List.not_mem_nil g)
  | cons g0 rest ih =>
    intro hc g hg
    rcases List.mem_cons.mp hg with hg | hg
    · exact hg ▸ chunksOf_head_le b hc
    · exact ih (chunksOf_tail b hc) g hg

theorem chunksOf_get_full (b : Nat) :
    ∀ (gs : List (List α)), ChunksOf b gs →
      ∀ (k : Nat) (hk : k < gs.length), k + 1 < gs.length →
        (gs.get ⟨k, hk⟩).length = b := by
  intro gs
  induction gs with
  | nil => intro hc k hk _; exact absurd hk (by simp)
  | cons g0 rest ih =>
    intro hc k hk hk1
    match k with
    | 0 =>
      match rest with
      | [] => simp at hk1
      | g2 :: rest2 => exact hc.1
    | j + 1 =>
      simp only [List.length_cons] at hk hk1
      exact ih (chunksOf_tail b hc) j (by omega) (by omega)

/-! ### Claim theorems -/

/-- C1: for every recipient list of length n, subject and body (and any
behaviour of the underlying transport), `sendBulkEmails` resolves with a
result whose `total` is n, whose `successCount + failureCount` is n, and
whose `success` and `failure` sequences have lengths `successCount` and
`failureCount` respectively: each recipient entry yields exactly one
outcome and none is dropped.  The hypothesis `1 ≤ batchSize` reflects the
positive configured batch size (`Config.email.batchSize || 10`). -/
theorem sendBulkEmails_counts (env : String → String → String → FetchBehavior)
    (emailList : List String) (subject body : String) (batchSize delayMs : Nat)
    (hb : 1 ≤ batchSize) :
    (sendBulkEmails env emailList subject body batchSize delayMs).total =
        emailList.length ∧
    (sendBulkEmails env emailList subject body batchSize delayMs).successCount +
        (sendBulkEmails env emailList subject body batchSize delayMs).failureCount =
        emailList.length ∧
    (sendBulkEmails env emailList subject body batchSize delayMs).success.length =
        (sendBulkEmails env emailList subject body batchSize delayMs).successCount ∧
    (sendBulkEmails env emailList subject body batchSize delayMs).failure.length =
        (sendBulkEmails env emailList subject body batchSize delayMs).failureCount := by
  refine ⟨rfl, ?_, ?_, ?_⟩
  · show (sendBulkEmailsLog env emailList subject body batchSize delayMs).ledger.success.length +
        (sendBulkEmailsLog env emailList subject body batchSize delayMs).ledger.failure.length =
        emailList.length
    rw [sendBulkEmailsLog_ledger env emailList subject body batchSize delayMs hb]
    have := filter_length_split (fun r => r.success)
      (emailList.map fun e => sendEmail env e subject body)
    simp only [List.length_map] at this
    simpa using this
  · rfl
  · rfl

/-- C10: group-internal append order is the group's positional input order
(the embedding of `Promise.all` keeps positions), so the final `success`
sequence is exactly the outcome sequence of the input list filtered to
successes, in original input order, and `failure` likewise. -/
theorem sendBulkEmails_order (env : String → String → String → FetchBehavior)
    (emailList : List String) (subject body : String) (batchSize delayMs : Nat)
    (hb : 1 ≤ batchSize) :
    (sendBulkEmails env emailList subject body batchSize delayMs).success =
      (emailList.map fun e => sendEmail env e subject body).filter
        (fun r => r.success) ∧
    (sendBulkEmails env emailList subject body batchSize delayMs).failure =
      (emailList.map fun e => sendEmail env e subject body).filter
        (fun r => !r.success) := by
  constructor
  · show (sendBulkEmailsLog env emailList subject body batchSize delayMs).ledger.success = _
    rw [sendBulkEmailsLog_ledger env emailList subject body batchSize delayMs hb]
  · show (sendBulkEmailsLog env emailList subject body batchSize delayMs).ledger.failure = _
    rw [sendBulkEmailsLog_ledger env emailList subject body batchSize delayMs hb]

/-- C2: if the transport throws for a recipient of the list, that
recipient's outcome appears in the `failure` sequence with
`errorCode = "NETWORK_ERROR"`; every other entry still gets exactly one
outcome (`successCount + failureCount` still equals the list length), and
`sendBulkEmails` still resolves — in this embedding it is a total function,
so the thrown error never escapes. -/
theorem sendBulkEmails_network_failure (env : String → String → String → FetchBehavior)
    (emailList : List String) (subject body : String) (batchSize delayMs : Nat)
    (recipient msg : String) (hb : 1 ≤ batchSize) (hmem : recipient ∈ emailList)
    (hthrow : env recipient subject body = .throw msg) :
    (∃ r ∈ (sendBulkEmails env emailList subject body batchSize delayMs).failure,
        r.email = recipient ∧ r.errorCode = some "NETWORK_ERROR" ∧ r.success = false) ∧
    (sendBulkEmails env emailList subject body batchSize delayMs).successCount +
        (sendBulkEmails env emailList subject body batchSize delayMs).failureCount =
        emailList.length := by
  constructor
  · have hfail : (sendBulkEmails env emailList subject body batchSize delayMs).failure =
        (emailList.map fun e => sendEmail env e subject body).filter
          (fun r => !r.success) := by
      show (sendBulkEmailsLog env emailList subject body batchSize delayMs).ledger.failure = _
      rw [sendBulkEmailsLog_ledger env emailList subject body batchSize delayMs hb]
    refine ⟨sendEmail env recipient subject body, ?_, ?_, ?_, ?_⟩
    · rw [hfail]
      refine List.mem_filter.mpr ⟨List.mem_map.mpr ⟨recipient, hmem, rfl⟩, ?_⟩
      simp [sendEmail, hthrow]
    · simp [sendEmail, hthrow]
    · simp [sendEmail, hthrow]
    · simp [sendEmail, hthrow]
  · show (sendBulkEmailsLog env emailList subject body batchSize delayMs).ledger.success.length +
        (sendBulkEmailsLog env emailList subject body batchSize delayMs).ledger.failure.length =
        emailList.length
    rw [sendBulkEmailsLog_ledger env emailList subject body batchSize delayMs hb]
    have := filter_length_split (fun r => r.success)
      (emailList.map fun e => sendEmail env e subject body)
    simp only [List.length_map] at this
    simpa using this

/-- C3: over n recipients with batch size `b ≥ 1` the progress callback is
invoked exactly once per group — `ceil(n / b)` times, in group order (the
`progressCalls` trace lists invocations in order) — and at every
invocation the reported `total` is n, the reported `processed` equals the
sum of the reported `success` and `failure` counts, and the `processed`
values are non-decreasing along the trace. -/
theorem sendBulkEmails_progress (env : String → String → String → FetchBehavior)
    (emailList : List String) (subject body : String) (batchSize delayMs : Nat)
    (hb : 1 ≤ batchSize) :
    (sendBulkEmailsLog env emailList subject body batchSize delayMs).progressCalls.length =
        numGroups batchSize emailList.length ∧
    (∀ p ∈ (sendBulkEmailsLog env emailList subject body batchSize delayMs).progressCalls,
        p.total = emailList.length ∧ p.processed = p.success + p.failure) ∧
    List.Chain' (fun a c => a ≤ c)
      ((sendBulkEmailsLog env emailList subject body batchSize delayMs).progressCalls.map
        Progress.processed) := by
  have hflat : (0 : Nat) + (groups batchSize emailList).flatten.length = emailList.length := by
    rw [groups_flatten _ hb]
    omega
  obtain ⟨hlen, hmem, hchain⟩ := runGroups_progress env subject body batchSize delayMs
    emailList.length hb (groups batchSize emailList) 0 { success := [], failure := [] }
    (groups_chunksOf _ hb _) hflat rfl
  refine ⟨?_, ?_, ?_⟩
  · show (runGroups env subject body batchSize delayMs emailList.length
        (groups batchSize emailList) 0 { success := [], failure := [] }).progressCalls.length = _
    rw [hlen, groups_length _ hb]
  · intro p hp
    obtain ⟨h1, h2, _, _⟩ := hmem p hp
    exact ⟨h1, h2⟩
  · rw [List.chain'_map]
    exact hchain

/-- C4: the loop partitions the recipient list into contiguous groups of
at most `batchSize` in the original order (`groups` is the batch sequence
of the loop and flattens back to the input), only the last group may be
smaller (every group before the last has length exactly `batchSize`), the
number of groups is `ceil(total / batchSize)`, and every entry of the
input — duplicates included — is passed to `sendEmail` exactly once, in
input order: the send-call trace is the input list itself. -/
theorem sendBulkEmails_grouping (env : String → String → String → FetchBehavior)
    (emailList : List String) (subject body : String) (batchSize delayMs : Nat)
    (hb : 1 ≤ batchSize) :
    (∀ g ∈ groups batchSize emailList, g.length ≤ batchSize) ∧
    (∀ (k : Nat) (hk : k < (groups batchSize emailList).length),
        k + 1 < (groups batchSize emailList).length →
        ((groups batchSize emailList).get ⟨k, hk⟩).length = batchSize) ∧
    (groups batchSize emailList).length = numGroups batchSize emailList.length ∧
    (groups batchSize emailList).flatten = emailList ∧
    (sendBulkEmailsLog env emailList subject body batchSize delayMs).sendCalls =
        emailList := by
  refine ⟨chunksOf_mem_le batchSize _ (groups_chunksOf _ hb _), ?_, groups_length _ hb _,
    groups_flatten _ hb _, ?_⟩
  · intro k hk hk1
    exact chunksOf_get_full batchSize _ (groups_chunksOf _ hb _) k hk hk1
  · show (runGroups env subject body batchSize delayMs emailList.length
        (groups batchSize emailList) 0 { success := [], failure := [] }).sendCalls = _
    rw [runGroups_sendCalls, groups_flatten _ hb]

/-- C5: the delay trace of a run is exactly one `interBatchDelay` entry
between consecutive groups — `ceil(n / b) - 1` entries, none after the
final group — and this holds for every transport behaviour, in particular
when every send of a group fails: the run still completes with one outcome
per recipient and still performs the inter-group delays. -/
theorem sendBulkEmails_delays (env : String → String → String → FetchBehavior)
    (emailList : List String) (subject body : String) (batchSize delayMs : Nat)
    (hb : 1 ≤ batchSize) :
    (sendBulkEmailsLog env emailList subject body batchSize delayMs).delays =
        List.replicate (numGroups batchSize emailList.length - 1) delayMs ∧
    (sendBulkEmails env emailList subject body batchSize delayMs).successCount +
        (sendBulkEmails env emailList subject body batchSize delayMs).failureCount =
        emailList.length := by
  constructor
  · have hflat : (0 : Nat) + (groups batchSize emailList).flatten.length =
        emailList.length := by
      rw [groups_flatten _ hb]
      omega
    show (runGroups env subject body batchSize delayMs emailList.length
        (groups batchSize emailList) 0 { success := [], failure := [] }).delays = _
    rw [runGroups_delays env subject body batchSize delayMs emailList.length hb
      (groups batchSize emailList) 0 { success := [], failure := [] }
      (groups_chunksOf _ hb _) hflat, groups_length _ hb]
  · show (sendBulkEmailsLog env emailList subject body batchSize delayMs).ledger.success.length +
        (sendBulkEmailsLog env emailList subject body batchSize delayMs).ledger.failure.length =
        emailList.length
    rw [sendBulkEmailsLog_ledger env emailList subject body batchSize delayMs hb]
    have := filter_length_split (fun r => r.success)
      (emailList.map fun e => sendEmail env e subject body)
    simp only [List.length_map] at this
    simpa using this

/-- C6: the `getSummary` success rate equals
`successCount / (successCount + failureCount) * 100` whenever at least one
outcome was recorded and equals 0 when both counts are zero (the JS
`|| 0` guard absorbs the 0/0 `NaN`); and after a nonempty run in which
every send succeeds, the failure sequence is empty and the success rate
is exactly 100. -/
theorem getSummary_successRate (led : Ledger)
    (env : String → String → String → FetchBehavior) (emailList : List String)
    (subject body : String) (batchSize delayMs : Nat) (hb : 1 ≤ batchSize)
    (hne : emailList ≠ [])
    (hall : ∀ e ∈ emailList, (sendEmail env e subject body).success = true) :
    (led.success.length + led.failure.length = 0 → (getSummary led).successRate = 0) ∧
    (led.success.length + led.failure.length ≠ 0 →
      (getSummary led).successRate =
        (led.success.length : ℚ) /
          ((led.success.length : ℚ) + (led.failure.length : ℚ)) * 100) ∧
    (sendBulkEmails env emailList subject body batchSize delayMs).failure = [] ∧
    (getSummary
      (sendBulkEmailsLog env emailList subject body batchSize delayMs).ledger).successRate =
        100 := by
  have hled := sendBulkEmailsLog_ledger env emailList subject body batchSize delayMs hb
  have hfail : ((emailList.map fun e => sendEmail env e subject body).filter
      fun r => !r.success) = [] := by
    rw [List.filter_eq_nil_iff]
    intro r hr
    obtain ⟨e, he, hre⟩ := List.mem_map.mp hr
    simp [← hre, hall e he]
  have hsucc : ((emailList.map fun e => sendEmail env e subject body).filter
      fun r => r.success) = emailList.map fun e => sendEmail env e subject body := by
    rw [List.filter_eq_self]
    intro r hr
    obtain ⟨e, he, hre⟩ := List.mem_map.mp hr
    rw [← hre]
    exact hall e he
  refine ⟨?_, ?_, ?_, ?_⟩
  · intro h0
    simp [getSummary, h0]
  · intro hpos
    simp [getSummary, hpos]
  · show (sendBulkEmailsLog env emailList subject body batchSize delayMs).ledger.failure = []
    rw [hled]
    exact hfail
  · rw [hled]
    simp only [getSummary, hfail, hsucc, List.length_map, List.length_nil]
    have hnz : emailList.length ≠ 0 := fun hc => hne (List.length_eq_zero.mp hc)
    have hq : (emailList.length : ℚ) ≠ 0 := Nat.cast_ne_zero.mpr hnz
    rw [if_neg (by omega)]
    push_cast
    field_simp

/-- C8: on the empty recipient list `sendBulkEmails` resolves with one
completed run whose `total` is 0 and whose outcome sequences are empty,
the progress callback is never invoked, no delay is scheduled, and
`getSummary` afterwards reports a success rate of 0. -/
theorem sendBulkEmails_empty (env : String → String → String → FetchBehavior)
    (subject body : String) (batchSize delayMs : Nat) :
    sendBulkEmails env [] subject body batchSize delayMs =
      { success := [], failure := [], total := 0, successCount := 0, failureCount := 0 } ∧
    (sendBulkEmailsLog env [] subject body batchSize delayMs).progressCalls = [] ∧
    (sendBulkEmailsLog env [] subject body batchSize delayMs).delays = [] ∧
    getSummary (sendBulkEmailsLog env [] subject body batchSize delayMs).ledger =
      { total := 0, success := 0, failure := 0, successRate := 0 } :=
  ⟨rfl, rfl, rfl, rfl⟩

/-- C9: `sendEmail` is total for every transport behaviour: when the
fetch/parse pipeline yields a result object it returns it, and when the
pipeline throws it returns a structured failure outcome with
`errorCode = "NETWORK_ERROR"` instead of propagating the error; hence
mapping it over a group (the embedding of `Promise.all` over the batch)
always yields exactly one outcome per entry and cannot reject. -/
theorem sendEmail_total (env : String → String → String → FetchBehavior)
    (toEmail subject body : String) :
    (∀ r, env toEmail subject body = .ok r → sendEmail env toEmail subject body = r) ∧
    (∀ msg, env toEmail subject body = .throw msg →
      sendEmail env toEmail subject body =
        { success := false, email := toEmail, subject := subject,
          errorCode := some "NETWORK_ERROR",
          errorMessage := some (if msg = "" then
            "Network error or API connection failed" else msg) }) ∧
    (∀ batch : List String,
      (batch.map fun e => sendEmail env e subject body).length = batch.length) := by
  refine ⟨?_, ?_, ?_⟩
  · intro r h
    simp [sendEmail, h]
  · intro msg h
    simp [sendEmail, h]
  · intro batch
    exact List.length_map batch _

/-- C7: the claim that a batch size below 1 is rejected synchronously
before any send is attempted fails on the code: `sendBulkEmails` performs
no validation of `Config.email.batchSize` (`|| 10` only replaces 0 or a
missing value), and with a configured batch size of -1 on a two-recipient
list the first loop iteration computes `emailList.slice(0, 0 + (-1))`,
which is the nonempty list holding the first recipient, so the send
primitive IS invoked; the loop counter then decreases without bound and
the run never terminates instead of rejecting. -/
theorem negativeBatchSize_sends_attempted :
    jsSlice ["a@example.com", "b@example.com"] 0 (0 + (-1)) = ["a@example.com"] ∧
    jsSlice ["a@example.com", "b@example.com"] 0 (0 + (-1)) ≠ [] := by
  constructor
  · rfl
  · intro h
    exact List.noConfusion h

/-! ### Concrete transport behaviours and witnesses -/

/-- Transport that always succeeds. -/
def envAllOk : String → String → String → FetchBehavior := fun e s _ =>
  .ok { success := true, email := e, subject := s, errorCode := none, errorMessage := none }

/-- Transport that always throws. -/
def envAllThrow : String → String → String → FetchBehavior := fun _ _ _ => .throw "boom"

/-- Transport that throws for one particular address and succeeds otherwise. -/
def envMixed : String → String → String → FetchBehavior := fun e s _ =>
  if e = "bad@example.com" then .throw "refused"
  else .ok { success := true, email := e, subject := s, errorCode := none, errorMessage := none }

theorem sendBulkEmails_counts_witness :
    1 ≤ 2 ∧
    ((sendBulkEmails envMixed ["a@example.com", "bad@example.com", "c@example.com"]
        "hi" "<p>hi</p>" 2 1000).total = 3 ∧
     (sendBulkEmails envMixed ["a@example.com", "bad@example.com", "c@example.com"]
        "hi" "<p>hi</p>" 2 1000).successCount +
       (sendBulkEmails envMixed ["a@example.com", "bad@example.com", "c@example.com"]
        "hi" "<p>hi</p>" 2 1000).failureCount = 3 ∧
     (sendBulkEmails envMixed ["a@example.com", "bad@example.com", "c@example.com"]
        "hi" "<p>hi</p>" 2 1000).success.length =
       (sendBulkEmails envMixed ["a@example.com", "bad@example.com", "c@example.com"]
        "hi" "<p>hi</p>" 2 1000).successCount ∧
     (sendBulkEmails envMixed ["a@example.com", "bad@example.com", "c@example.com"]
        "hi" "<p>hi</p>" 2 1000).failure.length =
       (sendBulkEmails envMixed ["a@example.com", "bad@example.com", "c@example.com"]
        "hi" "<p>hi</p>" 2 1000).failureCount) :=
  ⟨by decide, sendBulkEmails_counts envMixed
    ["a@example.com", "bad@example.com", "c@example.com"] "hi" "<p>hi</p>" 2 1000
    (by decide)⟩

theorem sendBulkEmails_network_failure_witness :
    (1 ≤ 2 ∧ "bad@example.com" ∈ ["a@example.com", "bad@example.com"] ∧
      envMixed "bad@example.com" "hi" "<p>hi</p>" = .throw "refused") ∧
    ((∃ r ∈ (sendBulkEmails envMixed ["a@example.com", "bad@example.com"]
          "hi" "<p>hi</p>" 2 1000).failure,
        r.email = "bad@example.com" ∧ r.errorCode = some "NETWORK_ERROR" ∧
          r.success = false) ∧
     (sendBulkEmails envMixed ["a@example.com", "bad@example.com"]
        "hi" "<p>hi</p>" 2 1000).successCount +
       (sendBulkEmails envMixed ["a@example.com", "bad@example.com"]
        "hi" "<p>hi</p>" 2 1000).failureCount = 2) :=
  ⟨⟨by decide, by decide, by decide⟩,
    sendBulkEmails_network_failure envMixed ["a@example.com", "bad@example.com"]
      "hi" "<p>hi</p>" 2 1000 "bad@example.com" "refused"
      (by decide) (by decide) (by decide)⟩

theorem sendBulkEmails_progress_witness :
    1 ≤ 2 ∧
    ((sendBulkEmailsLog envMixed
        ["a@example.com", "bad@example.com", "c@example.com", "d@example.com", "e@example.com"]
        "hi" "<p>hi</p>" 2 1000).progressCalls.length = numGroups 2 5 ∧
     (∀ p ∈ (sendBulkEmailsLog envMixed
        ["a@example.com", "bad@example.com", "c@example.com", "d@example.com", "e@example.com"]
        "hi" "<p>hi</p>" 2 1000).progressCalls,
        p.total = 5 ∧ p.processed = p.success + p.failure) ∧
     List.Chain' (fun a c => a ≤ c)
       ((sendBulkEmailsLog envMixed
        ["a@example.com", "bad@example.com", "c@example.com", "d@example.com", "e@example.com"]
        "hi" "<p>hi</p>" 2 1000).progressCalls.map Progress.processed)) :=
  ⟨by decide, sendBulkEmails_progress envMixed
    ["a@example.com", "bad@example.com", "c@example.com", "d@example.com", "e@example.com"]
    "hi" "<p>hi</p>" 2 1000 (by decide)⟩

theorem sendBulkEmails_grouping_witness :
    1 ≤ 2 ∧
    ((∀ g ∈ groups 2 ["a@example.com", "bad@example.com", "c@example.com",
        "d@example.com", "e@example.com"], g.length ≤ 2) ∧
     (∀ (k : Nat) (hk : k < (groups 2 ["a@example.com", "bad@example.com", "c@example.com",
        "d@example.com", "e@example.com"]).length),
        k + 1 < (groups 2 ["a@example.com", "bad@example.com", "c@example.com",
          "d@example.com", "e@example.com"]).length →
        ((groups 2 ["a@example.com", "bad@example.com", "c@example.com",
          "d@example.com", "e@example.com"]).get ⟨k, hk⟩).length = 2) ∧
     (groups 2 ["a@example.com", "bad@example.com", "c@example.com",
        "d@example.com", "e@example.com"]).length = numGroups 2 5 ∧
     (groups 2 ["a@example.com", "bad@example.com", "c@example.com",
        "d@example.com", "e@example.com"]).flatten =
       ["a@example.com", "bad@example.com", "c@example.com",
        "d@example.com", "e@example.com"] ∧
     (sendBulkEmailsLog envAllOk ["a@example.com", "bad@example.com", "c@example.com",
        "d@example.com", "e@example.com"] "hi" "<p>hi</p>" 2 1000).sendCalls =
       ["a@example.com", "bad@example.com", "c@example.com",
        "d@example.com", "e@example.com"]) :=
  ⟨by decide, sendBulkEmails_grouping envAllOk
    ["a@example.com", "bad@example.com", "c@example.com", "d@example.com", "e@example.com"]
    "hi" "<p>hi</p>" 2 1000 (by decide)⟩

theorem sendBulkEmails_delays_witness :
    1 ≤ 2 ∧
    ((sendBulkEmailsLog envAllThrow
        ["a@example.com", "b@example.com", "c@example.com", "d@example.com", "e@example.com"]
        "hi" "<p>hi</p>" 2 1000).delays = List.replicate (numGroups 2 5 - 1) 1000 ∧
     (sendBulkEmails envAllThrow
        ["a@example.com", "b@example.com", "c@example.com", "d@example.com", "e@example.com"]
        "hi" "<p>hi</p>" 2 1000).successCount +
       (sendBulkEmails envAllThrow
        ["a@example.com", "b@example.com", "c@example.com", "d@example.com", "e@example.com"]
        "hi" "<p>hi</p>" 2 1000).failureCount = 5) :=
  ⟨by decide, sendBulkEmails_delays envAllThrow
    ["a@example.com", "b@example.com", "c@example.com", "d@example.com", "e@example.com"]
    "hi" "<p>hi</p>" 2 1000 (by decide)⟩

theorem getSummary_successRate_witness :
    (1 ≤ 2 ∧ (["a@example.com", "b@example.com"] : List String) ≠ [] ∧
      (∀ e ∈ (["a@example.com", "b@example.com"] : List String),
        (sendEmail envAllOk e "hi" "<p>hi</p>").success = true)) ∧
    ((({ success := [], failure := [] } : Ledger).success.length +
        ({ success := [], failure := [] } : Ledger).failure.length = 0 →
        (getSummary { success := [], failure := [] }).successRate = 0) ∧
     (({ success := [], failure := [] } : Ledger).success.length +
        ({ success := [], failure := [] } : Ledger).failure.length ≠ 0 →
        (getSummary { success := [], failure := [] }).successRate =
          (({ success := [], failure := [] } : Ledger).success.length : ℚ) /
            ((({ success := [], failure := [] } : Ledger).success.length : ℚ) +
              (({ success := [], failure := [] } : Ledger).failure.length : ℚ)) * 100) ∧
     (sendBulkEmails envAllOk ["a@example.com", "b@example.com"]
        "hi" "<p>hi</p>" 2 1000).failure = [] ∧
     (getSummary (sendBulkEmailsLog envAllOk ["a@example.com", "b@example.com"]
        "hi" "<p>hi</p>" 2 1000).ledger).successRate = 100) :=
  ⟨⟨by decide, by decide, by decide⟩,
    getSummary_successRate { success := [], failure := [] } envAllOk
      ["a@example.com", "b@example.com"] "hi" "<p>hi</p>" 2 1000
      (by decide) (by decide) (by decide)⟩

theorem sendEmail_total_witness :
    envAllThrow "x@example.com" "hi" "<p>hi</p>" = .throw "boom" ∧
    sendEmail envAllThrow "x@example.com" "hi" "<p>hi</p>" =
      { success := false, email := "x@example.com", subject := "hi",
        errorCode := some "NETWORK_ERROR", errorMessage := some "boom" } :=
  ⟨rfl, (sendEmail_total envAllThrow "x@example.com" "hi" "<p>hi</p>").2.1 "boom" rfl⟩

theorem sendBulkEmails_order_witness :
    1 ≤ 2 ∧
    ((sendBulkEmails envMixed ["a@example.com", "bad@example.com", "c@example.com"]
        "hi" "<p>hi</p>" 2 1000).success =
      ((["a@example.com", "bad@example.com", "c@example.com"] : List String).map
        fun e => sendEmail envMixed e "hi" "<p>hi</p>").filter (fun r => r.success) ∧
     (sendBulkEmails envMixed ["a@example.com", "bad@example.com", "c@example.com"]
        "hi" "<p>hi</p>" 2 1000).failure =
      ((["a@example.com", "bad@example.com", "c@example.com"] : List String).map
        fun e => sendEmail envMixed e "hi" "<p>hi</p>").filter (fun r => !r.success)) :=
  ⟨by decide, sendBulkEmails_order envMixed
    ["a@example.com", "bad@example.com", "c@example.com"] "hi" "<p>hi</p>" 2 1000
    (by decide)⟩
